import Mathlib

/-!
Verification development for the bank-statement parsing repository.

The embedding models the Python sources:
  * `custom_parsers/icici_parser.py` — the generated statement parser
    (helpers `_norm_date`, `_num`, the flagged CR/DR regex grammar
    `_pats_type`, the positional grammar inside `_try_rows`, `parse`);
  * `agent.py` — `_pick`, `guess_parser_body` (the schema role resolver and
    the `uses_type` flag; the code it emits is the same parser body,
    parameterised by the resolved columns);
  * `utils/pdf.py` — `extract_text`.

Strings are `List Char`.  Python floats are modelled exactly as decimal
rationals `num / 10 ^ exp` (structure `PyF`); every number this code builds
has that shape, and claims about values are stated via `PyF.toRat : ℚ`.
Regular-expression matching is embedded by a fuelled backtracking engine
whose patterns transcribe the source's regexes constructor by constructor,
with Python's leftmost/greedy/lazy alternative order.
-/

namespace BankParse

/-- The characters Python `str.strip()` (and the regex class `\s`) treats as
whitespace, restricted to ASCII (the statements in this repository are
ASCII text). -/
def pyWsChars : List Char := [' ', '\t', '\n', '\r', '\x0b', '\x0c']

def isPyWs (c : Char) : Bool := pyWsChars.contains c

/-- Python `str.strip()`. -/
def pyStrip (s : List Char) : List Char :=
  ((s.dropWhile isPyWs).reverse.dropWhile isPyWs).reverse

/-- Python `s.replace(',', '')` — removes every comma. -/
def stripCommas (s : List Char) : List Char := s.filter (fun c => c ≠ ',')

/-- Python `str.lower()` on ASCII text. -/
def lowerL (s : List Char) : List Char := s.map Char.toLower

/-- Python `str.upper()` on ASCII text. -/
def upperL (s : List Char) : List Char := s.map Char.toUpper

/-- Shorthand: the character list of a string literal. -/
def lc (s : String) : List Char := s.data

/-- Does `hay` start with `pre`? (Python `str.startswith` on lists.) -/
def leadsWith : List Char → List Char → Bool
  | _, [] => true
  | [], _ :: _ => false
  | h :: hs, n :: ns => h = n && leadsWith hs ns

/-- Python substring containment `needle in hay`. -/
def hasSub (hay needle : List Char) : Bool :=
  match hay with
  | [] => needle = []
  | _ :: rest => leadsWith hay needle || hasSub rest needle

/-- `l[i]` with Python-irrelevant default (used only under length guards). -/
def partD (l : List (List Char)) (i : ℕ) : List Char := l.getD i []

/-- Python `str.split()` (no argument): split on whitespace runs, no empty
fields.  Worker with an accumulator for the current field. -/
def pySplitAux : List Char → List Char → List (List Char)
  | [], cur => if cur = [] then [] else [cur.reverse]
  | c :: rest, cur =>
    if isPyWs c then
      if cur = [] then pySplitAux rest [] else cur.reverse :: pySplitAux rest []
    else pySplitAux rest (c :: cur)

def pySplit (s : List Char) : List (List Char) := pySplitAux s []

/-- Python `str.split("\n")`: split at every newline, keeping empty fields. -/
def splitNlAux : List Char → List Char → List (List Char)
  | [], cur => [cur.reverse]
  | c :: rest, cur =>
    if c = '\n' then cur.reverse :: splitNlAux rest []
    else splitNlAux rest (c :: cur)

def splitNl (s : List Char) : List (List Char) := splitNlAux s []

/-- `re.split(r"\s{2,}", s)`: split at each maximal run of two or more
whitespace characters (a leftmost match of the greedy `\s{2,}` is exactly a
maximal run); single whitespace characters stay inside their field. -/
def splitWs2Aux : List Char → List Char → List Char → List (List Char)
  | [], cur, pend =>
    if 2 ≤ pend.length then [cur.reverse, []] else [(pend ++ cur).reverse]
  | c :: rest, cur, pend =>
    if isPyWs c then splitWs2Aux rest cur (c :: pend)
    else if 2 ≤ pend.length then cur.reverse :: splitWs2Aux rest [c] []
    else splitWs2Aux rest (c :: (pend ++ cur)) []

def splitWs2 (s : List Char) : List (List Char) := splitWs2Aux s [] []

/-- Python `str.splitlines()`: split at line boundaries (`\r\n` counts as
one boundary), with no trailing empty line. -/
def lineBreakChars : List Char :=
  ['\n', '\r', '\x0b', '\x0c', '\x1c', '\x1d', '\x1e', '\x85', ' ', ' ']

def pySplitlinesAux : List Char → List Char → List (List Char)
  | [], cur => if cur = [] then [] else [cur.reverse]
  | '\r' :: '\n' :: rest, cur => cur.reverse :: pySplitlinesAux rest []
  | c :: rest, cur =>
    if lineBreakChars.contains c then cur.reverse :: pySplitlinesAux rest []
    else pySplitlinesAux rest (c :: cur)

def pySplitlines (s : List Char) : List (List Char) := pySplitlinesAux s []

/-- `" ".join(parts)`. -/
def joinSp (l : List (List Char)) : List Char := (l.intersperse (lc " ")).flatten

/-! ## Exact model of the Python floats this code produces

Every float built by the parser comes from `float(...)` on a decimal token,
so it is a decimal rational `num / 10 ^ exp`.  We keep that representation
unreduced so that all operations compute by kernel reduction; values are
read off through `PyF.toRat`. -/

structure PyF where
  num : ℤ
  exp : ℕ
  deriving DecidableEq, Repr

def PyF.toRat (v : PyF) : ℚ := (v.num : ℚ) / (10 : ℚ) ^ v.exp

def pyZero : PyF := ⟨0, 0⟩

/-- Python `a < b` on the modelled floats (cross multiplication; the
denominators `10 ^ exp` are positive). -/
def PyF.lt (a b : PyF) : Bool :=
  decide (a.num * (10 : ℤ) ^ b.exp < b.num * (10 : ℤ) ^ a.exp)

/-- Python `abs`. -/
def PyF.abs (a : PyF) : PyF := ⟨|a.num|, a.exp⟩

/-- Python unary minus. -/
def PyF.neg (a : PyF) : PyF := ⟨-a.num, a.exp⟩

/-- Python `max(a, b)`: keeps `a` unless `b` is strictly larger. -/
def pyMax (a b : PyF) : PyF := if PyF.lt a b then b else a

/-- The literal `1e-9` from the source. -/
def epsLit : PyF := ⟨1, 9⟩

/-! ## Model of `float(s)` on decimal literals

CPython's `float` accepts an optionally signed decimal literal with
underscores strictly between digits and an optional exponent, surrounded by
optional whitespace.  The special spellings `inf`/`infinity`/`nan`, which
have no exact rational value and which no token grammar in this repository
can produce, are outside the model (treated as unparsable). -/

/-- Consume a run of digits in which an underscore may stand strictly
between two digits.  Returns the value, the number of digits consumed and
the rest of the input. -/
def digitsUAux : List Char → ℕ → ℕ → ℕ × ℕ × List Char
  | [], acc, n => (acc, n, [])
  | [c], acc, n =>
    if c.isDigit then (10 * acc + (c.toNat - 48), n + 1, [])
    else (acc, n, [c])
  | c :: d :: rest2, acc, n =>
    if c.isDigit then digitsUAux (d :: rest2) (10 * acc + (c.toNat - 48)) (n + 1)
    else if c = '_' ∧ d.isDigit then digitsUAux rest2 (10 * acc + (d.toNat - 48)) (n + 1)
    else (acc, n, c :: d :: rest2)

/-- `float(s)` on finite decimal literals, as an exact `PyF`. -/
def pyFloat (s0 : List Char) : Option PyF :=
  let s := pyStrip s0
  let sgn : ℤ × List Char :=
    match s with
    | '+' :: r => (1, r)
    | '-' :: r => (-1, r)
    | r => (1, r)
  let mant : Option (ℕ × ℕ × List Char) :=
    match sgn.2 with
    | '.' :: r =>
      let fp := digitsUAux r 0 0
      if fp.2.1 = 0 then none else some fp
    | other =>
      let ip := digitsUAux other 0 0
      if ip.2.1 = 0 then none
      else
        match ip.2.2 with
        | '.' :: r3 =>
          let fp := digitsUAux r3 0 0
          some (ip.1 * 10 ^ fp.2.1 + fp.1, fp.2.1, fp.2.2)
        | other2 => some (ip.1, 0, other2)
  match mant with
  | none => none
  | some (mv, fn, r) =>
    match r with
    | [] => some ⟨sgn.1 * mv, fn⟩
    | e :: r2 =>
      if e = 'e' ∨ e = 'E' then
        let esgn : Bool × List Char :=
          match r2 with
          | '+' :: t => (false, t)
          | '-' :: t => (true, t)
          | t => (false, t)
        let ep := digitsUAux esgn.2 0 0
        if ep.2.1 = 0 then none
        else if ep.2.2 ≠ [] then none
        else if esgn.1 then some ⟨sgn.1 * mv, fn + ep.1⟩
        else some ⟨sgn.1 * mv * 10 ^ ep.1, fn⟩
      else none

/-! ## A fuelled backtracking regex engine

The engine follows CPython's `re` semantics on the constructs the source
patterns use: ordered alternation, greedy `*`/`?`, the lazy `.+?` over a
character class, and named groups.  A continuation decides what must match
after the current node, so backtracking priorities are exactly Python's.
The fuel only bounds the recursion depth; `reFuel` is far larger than any
chain the engine can build for the given pattern and input. -/

inductive Re where
  | eps : Re
  | cls : (Char → Bool) → Re
  | seq : Re → Re → Re
  | alt : Re → Re → Re
  | star : Re → Re
  | opt : Re → Re
  | lazyPlus : (Char → Bool) → Re
  | grp : String → Re → Re

abbrev Caps := List (String × List Char)

def reM : ℕ → Re → List Char → Caps → (List Char → Caps → Option Caps) → Option Caps
  | 0, _, _, _, _ => none
  | fuel + 1, re, s, caps, k =>
    match re with
    | .eps => k s caps
    | .cls p =>
      match s with
      | [] => none
      | c :: rest => if p c then k rest caps else none
    | .seq a b => reM fuel a s caps (fun s2 c2 => reM fuel b s2 c2 k)
    | .alt a b =>
      match reM fuel a s caps k with
      | some r => some r
      | none => reM fuel b s caps k
    | .star r =>
      match reM fuel r s caps
          (fun s2 c2 => if s2.length < s.length then reM fuel (.star r) s2 c2 k else none) with
      | some res => some res
      | none => k s caps
    | .opt r =>
      match reM fuel r s caps k with
      | some res => some res
      | none => k s caps
    | .lazyPlus p =>
      match s with
      | [] => none
      | c :: rest =>
        if p c then
          match k rest caps with
          | some res => some res
          | none => reM fuel (.lazyPlus p) rest caps k
        else none
    | .grp name r =>
      reM fuel r s caps (fun s2 c2 => k s2 ((name, s.take (s.length - s2.length)) :: c2))

def reSize : Re → ℕ
  | .eps => 1
  | .cls _ => 1
  | .seq a b => reSize a + reSize b + 1
  | .alt a b => reSize a + reSize b + 1
  | .star r => reSize r + 1
  | .opt r => reSize r + 1
  | .lazyPlus _ => 1
  | .grp _ r => reSize r + 1

def reFuel (re : Re) (s : List Char) : ℕ := (reSize re + 2) * (s.length + 2)

/-- Anchored match (the source patterns are written `^...$` and run with
`re.match`): the whole input must be consumed. -/
def reFull (re : Re) (s : List Char) : Option Caps :=
  reM (reFuel re s) re s [] (fun rest caps => if rest = [] then some caps else none)

/-- `m.groupdict().get(name, dflt)`. -/
def capStr (caps : Caps) (name : String) (dflt : List Char) : List Char :=
  ((caps.find? (fun p => p.1 == name)).map (fun p => p.2)).getD dflt

/-! ### The source's regex patterns, transcribed

Writing S for the separator class of a dash or a forward slash:
`date_pat1 = (?P<Date>\d{2} S \d{2} S \d{4})`,
`date_pat2 = (?P<Date>\d{4} S \d{2} S \d{2})`,
`type_pat = (?P<Type>[Cc][Rr]|[Dd][Rr])`,
`money_pat/bal_pat = [\(\)]?(?:\d{1,3}(?:,\d{3})*|\d+)(?:\.\d{2})?[\(\)]?`.
The `re.IGNORECASE` flag on the compiled patterns is a no-op here: the only
letters appear in `[Cc]`-style classes that already cover both cases. -/

def rDigit : Re := .cls Char.isDigit

def rSepDash : Re := .cls (fun c => c = '-' || c = '/')

def seqL (l : List Re) : Re := l.foldr Re.seq .eps

def litC (c : Char) : Re := .cls (fun x => x = c)

def date1Core : Re :=
  seqL [rDigit, rDigit, rSepDash, rDigit, rDigit, rSepDash, rDigit, rDigit, rDigit, rDigit]

def date2Core : Re :=
  seqL [rDigit, rDigit, rDigit, rDigit, rSepDash, rDigit, rDigit, rSepDash, rDigit, rDigit]

def date_pat1 : Re := .grp "Date" date1Core

def date_pat2 : Re := .grp "Date" date2Core

def type_pat : Re :=
  .grp "Type" (.alt
    (seqL [.cls (fun c => c = 'C' || c = 'c'), .cls (fun c => c = 'R' || c = 'r')])
    (seqL [.cls (fun c => c = 'D' || c = 'd'), .cls (fun c => c = 'R' || c = 'r')]))

def parenCls : Re := .cls (fun c => c = '(' || c = ')')

def digits13 : Re := .seq rDigit (.opt (.seq rDigit (.opt rDigit)))

def commaGroup : Re := seqL [litC ',', rDigit, rDigit, rDigit]

def moneyCore : Re := .alt (.seq digits13 (.star commaGroup)) (.seq rDigit (.star rDigit))

def fracOpt : Re := .opt (seqL [litC '.', rDigit, rDigit])

def moneyBody : Re := seqL [.opt parenCls, moneyCore, fracOpt, .opt parenCls]

def money_pat : Re := .grp "Amt" moneyBody

def bal_pat : Re := .grp "Bal" moneyBody

def wsRe : Re := .cls isPyWs

def wsPlus : Re := .seq wsRe (.star wsRe)

def descPat : Re := .grp "Description" (.lazyPlus (fun c => c ≠ '\n'))

def patType1 : Re := seqL [date_pat1, wsPlus, descPat, wsPlus, type_pat, wsPlus, money_pat, wsPlus, bal_pat]

def patType2 : Re := seqL [date_pat2, wsPlus, descPat, wsPlus, type_pat, wsPlus, money_pat, wsPlus, bal_pat]

def patType3 : Re := seqL [date_pat1, wsPlus, descPat, wsPlus, money_pat, wsPlus, type_pat, wsPlus, bal_pat]

def _pats_type : List Re := [patType1, patType2, patType3]

/-- The positional grammar's first-token check: a bare `date_pat1`-shaped
or `date_pat2`-shaped token, anchored on both sides. -/
def dateTok (s : List Char) : Bool := (reFull (.alt date1Core date2Core) s).isSome

/-- The positional grammar's numeric-token check (the `money_pat` body). -/
def moneyTok (s : List Char) : Bool := (reFull moneyBody s).isSome

/-! ## `_norm_date`: `datetime.strptime` over the four source formats

CPython's `_strptime` compiles `%d` to `(3[01]|[12]\d|0[1-9]|[1-9])`, `%m`
to `(1[0-2]|0[1-9]|[1-9])` and `%Y` to four digits, matches the whole data
string, and then `datetime` validates the day against the month length
(proleptic Gregorian, years 1..9999).  A failed match or an invalid date
raises, which `_norm_date` catches before trying the next format. -/

def cls01 : Re := .cls (fun c => c = '0' || c = '1')

def cls12 : Re := .cls (fun c => c = '1' || c = '2')

def cls19 : Re := .cls (fun c => c.isDigit && c ≠ '0')

def cls02 : Re := .cls (fun c => c = '0' || c = '1' || c = '2')

def spD : Re :=
  .grp "d" (.alt (.seq (litC '3') cls01)
    (.alt (.seq cls12 rDigit) (.alt (.seq (litC '0') cls19) cls19)))

def spM : Re :=
  .grp "m" (.alt (.seq (litC '1') cls02) (.alt (.seq (litC '0') cls19) cls19))

def spY : Re := .grp "Y" (seqL [rDigit, rDigit, rDigit, rDigit])

def fmtDMY (sep : Char) : Re := seqL [spD, litC sep, spM, litC sep, spY]

def fmtYMD (sep : Char) : Re := seqL [spY, litC sep, spM, litC sep, spD]

/-- The four formats of `_norm_date`, in source order:
`%d-%m-%Y`, `%d/%m/%Y`, `%Y-%m-%d`, `%Y/%m/%d`. -/
def strpFmts : List Re := [fmtDMY '-', fmtDMY '/', fmtYMD '-', fmtYMD '/']

def digitsToNat (s : List Char) : ℕ := s.foldl (fun a c => 10 * a + (c.toNat - 48)) 0

def isLeap (y : ℕ) : Bool := y % 4 = 0 && (y % 100 ≠ 0 || y % 400 = 0)

def daysInMonth (y m : ℕ) : ℕ :=
  if m = 2 then (if isLeap y then 29 else 28)
  else if m = 4 ∨ m = 6 ∨ m = 9 ∨ m = 11 then 30 else 31

def dateOk (y m d : ℕ) : Bool :=
  1 ≤ y && y ≤ 9999 && 1 ≤ m && m ≤ 12 && 1 ≤ d && d ≤ daysInMonth y m

/-- One `datetime.strptime(raw, fmt)` attempt: anchored regex match plus
date validation; `none` models the caught exception. -/
def tryFmt (re : Re) (s : List Char) : Option (ℕ × ℕ × ℕ) :=
  match reFull re s with
  | none => none
  | some caps =>
    let y := digitsToNat (capStr caps "Y" [])
    let m := digitsToNat (capStr caps "m" [])
    let d := digitsToNat (capStr caps "d" [])
    if dateOk y m d then some (y, m, d) else none

def digitChar (n : ℕ) : Char := Char.ofNat (48 + n % 10)

def pad2 (n : ℕ) : List Char := [digitChar (n / 10), digitChar n]

def pad4 (n : ℕ) : List Char :=
  [digitChar (n / 1000), digitChar (n / 100), digitChar (n / 10), digitChar n]

/-- `date(y, m, d).isoformat()`. -/
def isoOf (ymd : ℕ × ℕ × ℕ) : List Char :=
  pad4 ymd.1 ++ '-' :: pad2 ymd.2.1 ++ '-' :: pad2 ymd.2.2

def normDateAux : List Re → List Char → List Char
  | [], r => r
  | f :: fs, r =>
    match tryFmt f r with
    | some ymd => isoOf ymd
    | none => normDateAux fs r

/-- `_norm_date` from the parser: try the four formats in order, emit the
first successful parse in ISO form, otherwise pass the trimmed text
through. -/
def _norm_date (raw : List Char) : List Char := normDateAux strpFmts (pyStrip raw)

/-- The body of `_num` after `s.replace(',', '').strip()`: empty gives
`0.0`; a token wrapped in `(...)` sets the negative flag and is stripped;
`float` failure gives `0.0` (the caught exception). -/
def numCore (s : List Char) : PyF :=
  if s = [] then pyZero
  else if s.head? = some '(' ∧ s.getLast? = some ')' then
    ((pyFloat ((s.drop 1).dropLast)).getD pyZero).neg
  else (pyFloat s).getD pyZero

/-- `_num` from the parser: strip commas and whitespace, treat a fully
parenthesised token as negative, fall back to `0.0` when `float` fails. -/
def _num (s0 : List Char) : PyF :=
  numCore (pyStrip (stripCommas s0))

/-! ## Schema configuration and rows

`Config` is the block of constants `guess_parser_body` bakes into the
generated parser (and which `custom_parsers/icici_parser.py` holds as
literals).  A row is the insertion-ordered dict `{c: None for c in
expected_cols}` with later assignments. -/

structure Config where
  col_date : Option String
  col_desc : Option String
  col_debit : Option String
  col_credit : Option String
  col_amount : Option String
  col_balance : Option String
  expected_cols : List String
  num_cols : List String
  uses_type : Bool

/-- Python truthiness of an optional column name (`None` and `""` are
falsy). -/
def truthy : Option String → Bool
  | none => false
  | some s => s ≠ ""

/-- Read a column name; only used under a `truthy` guard. -/
def och (o : Option String) : String := o.getD ""

inductive Cell where
  | none : Cell
  | str : List Char → Cell
  | num : PyF → Cell
  deriving DecidableEq, Repr

abbrev Row := List (String × Cell)

def firstDedupAux : List String → List String → List String
  | [], _ => []
  | c :: rest, seen =>
    if seen.contains c then firstDedupAux rest seen
    else c :: firstDedupAux rest (c :: seen)

/-- `{c: None for c in expected_cols}` — dict keys keep first-seen order. -/
def mkRow (cols : List String) : Row :=
  (firstDedupAux cols []).map (fun c => (c, Cell.none))

/-- Dict assignment `row[k] = v` (a fresh key would be appended; in this
code every assigned key is one of the row's columns). -/
def setCell : Row → String → Cell → Row
  | [], k, v => [(k, v)]
  | (k0, v0) :: rest, k, v =>
    if k0 = k then (k0, v) :: rest else (k0, v0) :: setCell rest k v

/-- Dict read `row.get(k)` (`row[k]` in the source only reads present
keys). -/
def getCell (r : Row) (k : String) : Cell :=
  ((r.find? (fun p => p.1 == k)).map (fun p => p.2)).getD Cell.none

/-- `(row.get(col) or '')` on a description cell. -/
def cellStrOrEmpty : Cell → List Char
  | .str s => s
  | _ => []

/-- `(row.get(c) or 0.0) != 0.0`. -/
def cellActive : Cell → Bool
  | .none => false
  | .str s => s ≠ []
  | .num v => v.num ≠ 0

def credit_keywords : List (List Char) :=
  [lc "salary", lc "interest", lc "refund", lc "cashback", lc "reversal",
   lc "credit", lc "neft in", lc "upi in"]

def debit_keywords : List (List Char) :=
  [lc "withdrawal", lc "atm", lc "payment", lc "debit", lc "imps", lc "upi",
   lc "pos", lc "recharge", lc "emi", lc "transfer out", lc "purchase"]

/-- `any(k in desc for k in kws)`. -/
def hasKw (kws : List (List Char)) (desc : List Char) : Bool :=
  kws.any (fun k => hasSub desc k)

/-- `for nc in num_cols: if nc and row[nc] is None: row[nc] = 0.0`. -/
def defaultsNum (cfg : Config) (row : Row) : Row :=
  cfg.num_cols.foldl
    (fun r nc =>
      if nc ≠ "" ∧ getCell r nc = Cell.none then setCell r nc (Cell.num pyZero) else r)
    row

/-! ## The flagged (CR/DR) grammar -/

/-- Build a row from a flagged-grammar match (icici_parser.py lines
79-102). -/
def flaggedBuild (cfg : Config) (caps : Caps) : Row :=
  let row0 := mkRow cfg.expected_cols
  let row1 := if truthy cfg.col_date then
      setCell row0 (och cfg.col_date) (Cell.str (_norm_date (capStr caps "Date" []))) else row0
  let row2 := if truthy cfg.col_desc then
      setCell row1 (och cfg.col_desc) (Cell.str (pyStrip (capStr caps "Description" []))) else row1
  let amt := _num (capStr caps "Amt" (lc "0"))
  let bal := _num (capStr caps "Bal" (lc "0"))
  let t := upperL (capStr caps "Type" [])
  let row3 :=
    if truthy cfg.col_amount ∧ (cfg.col_debit = none ∨ cfg.col_credit = none) then
      setCell row2 (och cfg.col_amount) (Cell.num amt)
    else if t = lc "CR" then
      let ra := if truthy cfg.col_credit then setCell row2 (och cfg.col_credit) (Cell.num amt) else row2
      if truthy cfg.col_debit then setCell ra (och cfg.col_debit) (Cell.num pyZero) else ra
    else if t = lc "DR" then
      let ra := if truthy cfg.col_debit then setCell row2 (och cfg.col_debit) (Cell.num amt) else row2
      if truthy cfg.col_credit then setCell ra (och cfg.col_credit) (Cell.num pyZero) else ra
    else row2
  let row4 := if truthy cfg.col_balance then setCell row3 (och cfg.col_balance) (Cell.num bal) else row3
  defaultsNum cfg row4

/-- Try the three flagged patterns in source order, first match wins
(icici_parser.py lines 76-104). -/
def flaggedRow (cfg : Config) (ln : List Char) : Option Row :=
  (_pats_type.findSome? (fun p => reFull p ln)).map (flaggedBuild cfg)

/-! ## The positional/tabular grammar -/

/-- The numeric tokens gathered from `parts[2:]` (lines 119-124). -/
def posNums (parts : List (List Char)) : List PyF :=
  (parts.drop 2).filterMap (fun p =>
    let p2 := pyStrip p
    if moneyTok p2 then some (_num p2) else none)

/-- `remaining = nums[:-1] if len(nums) >= 1 else nums[:]` (line 131). -/
def posRemaining (nums : List PyF) : List PyF :=
  if 1 ≤ nums.length then nums.dropLast else nums

/-- The description the keyword heuristics inspect (line 140). -/
def rowDesc (cfg : Config) (row : Row) : List Char :=
  if truthy cfg.col_desc then lowerL (cellStrOrEmpty (getCell row (och cfg.col_desc))) else []

/-- Amount assignment from `remaining` (icici_parser.py lines 133-191). -/
def posAmounts (cfg : Config) (row2 : Row) (remaining : List PyF) : Row :=
  if truthy cfg.col_amount ∧ ¬(truthy cfg.col_debit ∨ truthy cfg.col_credit) then
    match remaining with
    | [] => row2
    | v :: _ => setCell row2 (och cfg.col_amount) (Cell.num v)
  else
    let desc := rowDesc cfg row2
    let rowA := if truthy cfg.col_debit ∧ getCell row2 (och cfg.col_debit) = Cell.none then
        setCell row2 (och cfg.col_debit) (Cell.num pyZero) else row2
    let rowB := if truthy cfg.col_credit ∧ getCell rowA (och cfg.col_credit) = Cell.none then
        setCell rowA (och cfg.col_credit) (Cell.num pyZero) else rowA
    match remaining with
    | [] => rowB
    | [v1] =>
      if hasKw credit_keywords desc then
        (if truthy cfg.col_credit then setCell rowB (och cfg.col_credit) (Cell.num v1) else rowB)
      else if hasKw debit_keywords desc then
        (if truthy cfg.col_debit then setCell rowB (och cfg.col_debit) (Cell.num v1) else rowB)
      else
        (if truthy cfg.col_debit then setCell rowB (och cfg.col_debit) (Cell.num v1) else rowB)
    | a :: b :: _ =>
      if PyF.lt (PyF.abs a) epsLit ∧ PyF.lt epsLit (PyF.abs b) then
        if hasKw credit_keywords desc then
          (if truthy cfg.col_credit then setCell rowB (och cfg.col_credit) (Cell.num b) else rowB)
        else if hasKw debit_keywords desc then
          (if truthy cfg.col_debit then setCell rowB (och cfg.col_debit) (Cell.num b) else rowB)
        else
          (if truthy cfg.col_debit then setCell rowB (och cfg.col_debit) (Cell.num b) else rowB)
      else if PyF.lt (PyF.abs b) epsLit ∧ PyF.lt epsLit (PyF.abs a) then
        if hasKw credit_keywords desc then
          (if truthy cfg.col_credit then setCell rowB (och cfg.col_credit) (Cell.num a) else rowB)
        else if hasKw debit_keywords desc then
          (if truthy cfg.col_debit then setCell rowB (och cfg.col_debit) (Cell.num a) else rowB)
        else
          (if truthy cfg.col_debit then setCell rowB (och cfg.col_debit) (Cell.num a) else rowB)
      else
        if PyF.lt a pyZero ∨ PyF.lt b pyZero then
          (if truthy cfg.col_debit then
            setCell rowB (och cfg.col_debit) (Cell.num (PyF.abs (if PyF.lt a pyZero then a else b)))
          else rowB)
        else if hasKw credit_keywords desc then
          (if truthy cfg.col_credit then setCell rowB (och cfg.col_credit) (Cell.num (pyMax a b)) else rowB)
        else if hasKw debit_keywords desc then
          (if truthy cfg.col_debit then setCell rowB (och cfg.col_debit) (Cell.num (pyMax a b)) else rowB)
        else
          let rC := if truthy cfg.col_debit then setCell rowB (och cfg.col_debit) (Cell.num a) else rowB
          if truthy cfg.col_credit then setCell rC (och cfg.col_credit) (Cell.num pyZero) else rC

/-- `any((row.get(c) or 0.0) != 0.0 for c in num_cols if c)` (line 199). -/
def posAccept (cfg : Config) (row : Row) : Bool :=
  cfg.num_cols.any (fun c => c ≠ "" && cellActive (getCell row c))

/-- The positional row before amount assignment (lines 114-129): dict
init, the Date and Description writes, and the Balance write from the last
numeric token. -/
def posPre (cfg : Config) (parts : List (List Char)) : Row :=
  let row0 := mkRow cfg.expected_cols
  let row1 := if truthy cfg.col_date then
      setCell row0 (och cfg.col_date) (Cell.str (_norm_date (pyStrip (partD parts 0)))) else row0
  let row2 := if truthy cfg.col_desc then
      setCell row1 (och cfg.col_desc) (Cell.str (pyStrip (partD parts 1))) else row1
  let nums := posNums parts
  if nums ≠ [] ∧ truthy cfg.col_balance then
    setCell row2 (och cfg.col_balance) (Cell.num (nums.getLastD pyZero))
  else row2

/-- Build the positional row (lines 114-196), before the acceptance
check. -/
def posBuild (cfg : Config) (parts : List (List Char)) : Row :=
  defaultsNum cfg (posAmounts cfg (posPre cfg parts) (posRemaining (posNums parts)))

/-- The positional branch for one line (lines 108-200): split on runs of
two or more whitespace characters, require at least three fields and a
date-shaped first field, build the row, keep it only if some numeric cell
is non-zero. -/
def positionalRow (cfg : Config) (ln : List Char) : Option Row :=
  let parts := splitWs2 (pyStrip ln)
  if 3 ≤ parts.length ∧ dateTok (pyStrip (partD parts 0)) then
    let row := posBuild cfg parts
    if posAccept cfg row then some row else none
  else none

/-- One loop iteration of `_try_rows`: flagged grammar first when
`uses_type`, then the positional fallback. -/
def lineRow (cfg : Config) (ln : List Char) : Option Row :=
  if cfg.uses_type then
    match flaggedRow cfg ln with
    | some r => some r
    | none => positionalRow cfg ln
  else positionalRow cfg ln

/-- `_try_rows`: the per-line loop, appending produced rows in order. -/
def _try_rows (cfg : Config) (lines : List (List Char)) : List Row :=
  lines.foldl (fun rows ln => rows ++ (lineRow cfg ln).toList) []

/-! ## agent.py: `_pick`, the role tables and `uses_type` -/

/-- `_pick` from agent.py (lines 36-40): first synonym present in the
schema. -/
def _pick (cols : List String) (names : List String) : Option String :=
  names.find? (fun n => cols.contains n)

def dateNames : List String := ["Date", "Txn Date", "Transaction Date"]

def descNames : List String := ["Description", "Narration", "Details"]

def debitNames : List String := ["Debit Amt", "Debit", "Withdrawal", "Dr"]

def creditNames : List String := ["Credit Amt", "Credit", "Deposit", "Cr"]

def amountNames : List String := ["Amount", "Amt"]

def balanceNames : List String := ["Balance", "Closing Balance", "Bal"]

/-- `uses_type` (agent.py line 57): four case-sensitive substring tests,
the last two without a leading space. -/
def usesTypeOf (text : List Char) : Bool :=
  hasSub text (lc " CR ") || hasSub text (lc " DR ") ||
  hasSub text (lc "Cr ") || hasSub text (lc "Dr ")

/-- `[c for c in [col_debit, col_credit, col_amount, col_balance] if c]`. -/
def filtTruthy (l : List (Option String)) : List String :=
  l.filterMap (fun o =>
    match o with
    | some s => if s ≠ "" then some s else none
    | none => none)

/-- The constants `guess_parser_body` (agent.py lines 42-72) writes into
the generated parser. -/
def guessConfig (cols : List String) (text : List Char) : Config :=
  let cdb := _pick cols debitNames
  let ccr := _pick cols creditNames
  let cam := _pick cols amountNames
  let cbal := _pick cols balanceNames
  { col_date := _pick cols dateNames, col_desc := _pick cols descNames,
    col_debit := cdb, col_credit := ccr, col_amount := cam, col_balance := cbal,
    expected_cols := cols,
    num_cols := filtTruthy [cdb, ccr, cam, cbal],
    uses_type := usesTypeOf text }

/-- The constants written in custom_parsers/icici_parser.py (lines
19-27). -/
def iciciConfig : Config :=
  { col_date := some "Date", col_desc := some "Description",
    col_debit := some "Debit Amt", col_credit := some "Credit Amt",
    col_amount := none, col_balance := some "Balance",
    expected_cols := ["Date", "Description", "Debit Amt", "Credit Amt", "Balance"],
    num_cols := ["Debit Amt", "Credit Amt", "Balance"],
    uses_type := false }

/-! ## utils/pdf.py: `extract_text` -/

/-- One row of the DataFrame `extract_text` builds. -/
structure XRow where
  date : List Char
  desc : List Char
  debit : List Char
  credit : List Char
  balance : List Char
  deriving DecidableEq, Repr

/-- The per-line filter and 5-field split (utils/pdf.py lines 12-20). -/
def rowOfLine (line : List Char) : Option XRow :=
  let parts := pySplit line
  if 5 ≤ parts.length ∧ partD parts 0 ≠ lc "Date" then
    some { date := partD parts 0,
           desc := joinSp ((parts.take (parts.length - 3)).drop 1),
           debit := partD parts (parts.length - 3),
           credit := partD parts (parts.length - 2),
           balance := partD parts (parts.length - 1) }
  else none

/-- pandas `drop_duplicates()`: keep the first occurrence of each row. -/
def dropDupsFirstAux : List XRow → List XRow → List XRow
  | _, [] => []
  | seen, r :: rest =>
    if r ∈ seen then dropDupsFirstAux seen rest
    else r :: dropDupsFirstAux (r :: seen) rest

def dropDupsFirst (rows : List XRow) : List XRow := dropDupsFirstAux [] rows

/-- `extract_text` from utils/pdf.py: a page whose extracted text is None
or empty contributes nothing; every line of every page goes through
`rowOfLine`; duplicate rows are removed at the end. -/
def extract_text (pages : List (Option (List Char))) : List XRow :=
  let rows := pages.foldl
    (fun acc otext =>
      match otext with
      | some text =>
        if text ≠ [] then
          (splitNl text).foldl (fun a l => a ++ (rowOfLine l).toList) acc
        else acc
      | none => acc) []
  dropDupsFirst rows

/-! ## `parse`: the published entry point of the generated parser -/

inductive PyExn where
  | attributeError : String → PyExn
  deriving DecidableEq, Repr

/-- The dynamic value bound to `text` in `parse`. -/
inductive PyText where
  | ofStr : List Char → PyText
  | ofDF : List XRow → PyText

/-- `text.splitlines()`: defined on strings, an AttributeError on a
DataFrame. -/
def splitlinesDyn : PyText → Except PyExn (List (List Char))
  | .ofStr s => .ok (pySplitlines s)
  | .ofDF _ => .error (.attributeError "splitlines")

/-- `parse` (icici_parser.py lines 6-206).  The value `extract_text`
returns is the DataFrame of utils/pdf.py, and the next line of `parse`
calls `text.splitlines()` on it. -/
def parse (pages : List (Option (List Char))) : Except PyExn (List Row) := do
  let text := PyText.ofDF (extract_text pages)
  let lns ← splitlinesDyn text
  let lines := (lns.filter (fun l => l ≠ [] && pyStrip l ≠ [])).map pyStrip
  pure (_try_rows iciciConfig lines)

/-! ## Statement-level definitions

Helpers used only to state claims: reading a cell's rational value, the
sequence of lines a PDF's text contains, the description the positional
router inspects, and the claims' own propositions (for the claims the code
falsifies). -/

/-- The rational value of a numeric cell. -/
def cellRat : Cell → Option ℚ
  | .num v => some v.toRat
  | _ => none

/-- The lines one extracted page contributes (`if text:` then split). -/
def pageTextLines : Option (List Char) → List (List Char)
  | some t => if t ≠ [] then splitNl t else []
  | none => []

/-- Every line of the PDF's text, in order. -/
def pageLines (pages : List (Option (List Char))) : List (List Char) :=
  pages.flatMap pageTextLines

/-- The lowered description the positional keyword routing inspects, read
off the split fields of the line. -/
def posDesc (cfg : Config) (parts : List (List Char)) : List Char :=
  if truthy cfg.col_desc then lowerL (pyStrip (partD parts 1)) else []

/-- Claim C1 as stated: in the positional grammar with a Debit/Credit
schema, when the two numbers before the balance are non-zero (magnitude at
least `1e-9`) and non-negative, a credit keyword routes `max(a, b)` to
Credit, and a debit keyword or no keyword routes `a` to Debit with Credit
`0.0`. -/
def C1Claim : Prop :=
  ∀ (cols : List String) (text ln : List Char) (row : Row) (a b : PyF) (rest : List PyF),
    truthy (guessConfig cols text).col_debit = true →
    truthy (guessConfig cols text).col_credit = true →
    positionalRow (guessConfig cols text) ln = some row →
    posRemaining (posNums (splitWs2 (pyStrip ln))) = a :: b :: rest →
    1 / 1000000000 ≤ |a.toRat| → 1 / 1000000000 ≤ |b.toRat| →
    0 ≤ a.toRat → 0 ≤ b.toRat →
    (hasKw credit_keywords (posDesc (guessConfig cols text) (splitWs2 (pyStrip ln))) = true →
      cellRat (getCell row (och (guessConfig cols text).col_credit)) = some (max a.toRat b.toRat)) ∧
    (hasKw credit_keywords (posDesc (guessConfig cols text) (splitWs2 (pyStrip ln))) = false →
      cellRat (getCell row (och (guessConfig cols text).col_debit)) = some a.toRat ∧
      cellRat (getCell row (och (guessConfig cols text).col_credit)) = some 0)

/-- Claim C4 as stated: the `uses_type` flag is set exactly when the text
contains a standalone CR or DR token case-insensitively (here: the
lowercased text contains the space-delimited token). -/
def C4Claim : Prop :=
  ∀ text : List Char,
    usesTypeOf text = true ↔
      (hasSub (lowerL text) (lc " cr ") = true ∨ hasSub (lowerL text) (lc " dr ") = true)

/-- Claim C5 as stated: the Line Extractor exposes every non-empty trimmed
line of the PDF text to the parser (one row candidate per such line, no
filtering). -/
def C5Claim : Prop :=
  ∀ pages : List (Option (List Char)),
    (extract_text pages).length =
      ((pageLines pages).filter (fun l => pyStrip l ≠ [])).length

/-- The Debit/Credit schema of the worked examples. -/
def c3Cols : List String := ["Date", "Description", "Debit Amt", "Credit Amt", "Balance"]

/-- A positional line with a debit keyword and two non-zero, non-negative
amounts before the balance (a = 100.00, b = 200.00). -/
def c1Line : List Char := lc "01-02-2024  ATM use  100.00  200.00  300.00"

/-- A positional line with a credit keyword and two non-zero, non-negative
amounts before the balance. -/
def c1wLine : List Char := lc "01-02-2024  Refund A  100.00  200.00  300.00"

/-- The flagged-grammar input line of claim C3. -/
def c3Line : List Char := lc "01-02-2024 Salary Credit CR 5,000.00 10,000.00"

/-- The row the flagged grammar produces for `c3Line` (checked below). -/
def c3Row : Row :=
  [("Date", Cell.str (lc "2024-02-01")),
   ("Description", Cell.str (lc "Salary Credit")),
   ("Debit Amt", Cell.num ⟨0, 0⟩),
   ("Credit Amt", Cell.num ⟨500000, 2⟩),
   ("Balance", Cell.num ⟨1000000, 2⟩)]

/-! ## Bridge lemmas: the PyF operations compute real rational
facts -/

theorem PyF.toRat_def (v : PyF) : v.toRat = (v.num : ℚ) / (10 : ℚ) ^ v.exp := rfl

theorem pyZero_toRat : pyZero.toRat = 0 := by
  simp [pyZero, PyF.toRat]

theorem PyF.lt_iff (a b : PyF) : PyF.lt a b = true ↔ a.toRat < b.toRat := by
  unfold PyF.lt PyF.toRat
  rw [decide_eq_true_eq, div_lt_div_iff₀ (by positivity) (by positivity)]
  constructor
  · intro h
    exact_mod_cast h
  · intro h
    exact_mod_cast h

theorem PyF.toRat_abs (a : PyF) : (PyF.abs a).toRat = |a.toRat| := by
  have h1 : |(10 : ℚ) ^ a.exp| = (10 : ℚ) ^ a.exp := abs_of_pos (by positivity)
  simp only [PyF.abs, PyF.toRat, abs_div, Int.cast_abs, h1]

theorem PyF.toRat_neg (a : PyF) : (PyF.neg a).toRat = -a.toRat := by
  unfold PyF.neg PyF.toRat
  push_cast
  ring

theorem pyMax_toRat (a b : PyF) : (pyMax a b).toRat = max a.toRat b.toRat := by
  unfold pyMax
  rcases lt_trichotomy a.toRat b.toRat with h | h | h
  · rw [if_pos ((PyF.lt_iff a b).mpr h), max_eq_right h.le]
  · by_cases hb : PyF.lt a b = true
    · rw [if_pos hb, max_eq_right h.le]
    · rw [if_neg (by simp [hb]), h, max_self]
  · rw [if_neg, max_eq_left h.le]
    intro hc
    exact absurd ((PyF.lt_iff a b).mp hc) (not_lt.mpr h.le)

theorem epsLit_toRat : epsLit.toRat = 1 / 1000000000 := by
  norm_num [epsLit, PyF.toRat]

theorem PyF.toRat_eq_zero_iff (a : PyF) : a.toRat = 0 ↔ a.num = 0 := by
  unfold PyF.toRat
  rw [div_eq_zero_iff]
  constructor
  · rintro (h | h)
    · exact_mod_cast h
    · exact absurd h (by positivity)
  · intro h
    exact Or.inl (by exact_mod_cast h)

/-! ## Generic list, fold and row lemmas -/

theorem foldl_opt_acc {α β : Type} (f : α → Option β) (l : List α) :
    ∀ acc : List β,
      l.foldl (fun r x => r ++ (f x).toList) acc
        = acc ++ l.foldl (fun r x => r ++ (f x).toList) [] := by
  induction l with
  | nil => intro acc; simp
  | cons x xs ih =>
    intro acc
    simp only [List.foldl_cons]
    rw [ih (acc ++ (f x).toList), ih ([] ++ (f x).toList)]
    simp

theorem foldl_opt_filterMap {α β : Type} (f : α → Option β) (l : List α) :
    l.foldl (fun r x => r ++ (f x).toList) [] = l.filterMap f := by
  induction l with
  | nil => simp
  | cons x xs ih =>
    simp only [List.foldl_cons, List.nil_append]
    rw [foldl_opt_acc f xs ((f x).toList), ih]
    cases h : f x <;> simp [h, List.filterMap_cons]

theorem getCell_setCell_same (r : Row) (k : String) (v : Cell) :
    getCell (setCell r k v) k = v := by
  induction r with
  | nil => simp [setCell, getCell]
  | cons p rest ih =>
    obtain ⟨k0, v0⟩ := p
    by_cases h : k0 = k
    · subst h
      simp [setCell, getCell]
    · simp only [setCell, if_neg h]
      simpa [getCell, List.find?_cons, h] using ih

theorem getCell_setCell_ne (r : Row) (k k2 : String) (v : Cell) (h : k2 ≠ k) :
    getCell (setCell r k v) k2 = getCell r k2 := by
  induction r with
  | nil => simp [setCell, getCell, Ne.symm h]
  | cons p rest ih =>
    obtain ⟨k0, v0⟩ := p
    by_cases hk : k0 = k
    · subst hk
      simp [setCell, getCell, List.find?_cons, Ne.symm h]
    · by_cases hc : k0 = k2
      · subst hc
        simp [setCell, getCell, List.find?_cons, hk]
      · simp only [setCell, if_neg hk]
        simpa [getCell, List.find?_cons, hc] using ih

theorem cellActive_defaults_step (r : Row) (nc c : String) :
    cellActive (getCell
      (if nc ≠ "" ∧ getCell r nc = Cell.none then setCell r nc (Cell.num pyZero) else r) c)
      = cellActive (getCell r c) := by
  split
  · rename_i h
    by_cases hc : c = nc
    · subst hc
      rw [getCell_setCell_same, h.2]
      decide
    · rw [getCell_setCell_ne _ _ _ _ hc]
  · rfl

theorem cellActive_defaultsNum (cfg : Config) (r : Row) (c : String) :
    cellActive (getCell (defaultsNum cfg r) c) = cellActive (getCell r c) := by
  unfold defaultsNum
  generalize cfg.num_cols = l
  induction l generalizing r with
  | nil => rfl
  | cons nc rest ih =>
    simp only [List.foldl_cons]
    rw [ih, cellActive_defaults_step]

theorem getCell_defaultsNum_preserve (cfg : Config) (r : Row) (c : String)
    (h : getCell r c ≠ Cell.none) :
    getCell (defaultsNum cfg r) c = getCell r c := by
  unfold defaultsNum
  generalize cfg.num_cols = l
  induction l generalizing r with
  | nil => rfl
  | cons nc rest ih =>
    simp only [List.foldl_cons]
    by_cases hstep : nc ≠ "" ∧ getCell r nc = Cell.none
    · have hc : c ≠ nc := by
        rintro rfl
        exact h hstep.2
      have h2 : getCell (setCell r nc (Cell.num pyZero)) c = getCell r c :=
        getCell_setCell_ne _ _ _ _ hc
      rw [if_pos hstep, ih (setCell r nc (Cell.num pyZero)) (by rw [h2]; exact h), h2]
    · rw [if_neg hstep, ih r h]

theorem dropDupsFirstAux_spec : ∀ (l seen : List XRow),
    (dropDupsFirstAux seen l).Nodup ∧ ∀ r ∈ dropDupsFirstAux seen l, r ∉ seen := by
  intro l
  induction l with
  | nil =>
    intro seen
    exact ⟨List.nodup_nil, by simp [dropDupsFirstAux]⟩
  | cons r rest ih =>
    intro seen
    by_cases hr : r ∈ seen
    · simpa [dropDupsFirstAux, hr] using ih seen
    · obtain ⟨h1, h2⟩ := ih (r :: seen)
      simp only [dropDupsFirstAux, if_neg hr]
      refine ⟨List.nodup_cons.mpr ⟨fun hmem => (h2 r hmem) (List.mem_cons_self r _), h1⟩, ?_⟩
      intro x hx
      rcases List.mem_cons.mp hx with rfl | hx2
      · exact hr
      · exact fun hxs => (h2 x hx2) (List.mem_cons_of_mem _ hxs)

theorem leadsWith_iff (n : List Char) : ∀ h : List Char,
    leadsWith h n = true ↔ ∃ q, h = n ++ q := by
  induction n with
  | nil =>
    intro h
    constructor
    · intro _
      exact ⟨h, rfl⟩
    · intro _
      cases h <;> rfl
  | cons x ns ih =>
    intro h
    cases h with
    | nil => simp [leadsWith]
    | cons c hs =>
      simp only [leadsWith, Bool.and_eq_true, decide_eq_true_eq, ih hs]
      constructor
      · rintro ⟨rfl, q, rfl⟩
        exact ⟨q, rfl⟩
      · rintro ⟨q, hq⟩
        injection hq with h1 h2
        exact ⟨h1, q, h2⟩

theorem hasSub_iff (needle : List Char) : ∀ hay : List Char,
    hasSub hay needle = true ↔ ∃ p q, hay = p ++ needle ++ q := by
  intro hay
  induction hay with
  | nil =>
    simp only [hasSub, decide_eq_true_eq]
    constructor
    · rintro rfl
      exact ⟨[], [], rfl⟩
    · rintro ⟨p, q, hq⟩
      have hl := congrArg List.length hq
      simp only [List.length_nil, List.length_append] at hl
      exact List.length_eq_zero.mp (by omega)
  | cons c rest ih =>
    simp only [hasSub, Bool.or_eq_true, leadsWith_iff, ih]
    constructor
    · rintro (⟨q, hq⟩ | ⟨p, q, hq⟩)
      · exact ⟨[], q, by simpa using hq⟩
      · exact ⟨c :: p, q, by simp [hq]⟩
    · rintro ⟨p, q, hq⟩
      cases p with
      | nil =>
        exact Or.inl ⟨q, by simpa using hq⟩
      | cons a p2 =>
        injection hq with h1 h2
        exact Or.inr ⟨p2, q, h2⟩

theorem stripCommas_idem (s : List Char) : stripCommas (stripCommas s) = stripCommas s := by
  simp [stripCommas, List.filter_filter]

theorem pyStrip_paren (l : List Char) : pyStrip ('(' :: l ++ [')']) = '(' :: l ++ [')'] := by
  have hp : isPyWs '(' = false := by decide
  have hq : isPyWs ')' = false := by decide
  have h1 : (('(' :: l) ++ [')']).dropWhile isPyWs = ('(' :: l) ++ [')'] := by
    rw [List.cons_append, List.dropWhile_cons, hp]
    simp
  have h2 : (('(' :: l) ++ [')']).reverse = ')' :: (l.reverse ++ ['(']) := by
    simp [List.reverse_append]
  have h3 : (')' :: (l.reverse ++ ['('])).dropWhile isPyWs = ')' :: (l.reverse ++ ['(']) := by
    rw [List.dropWhile_cons, hq]
    simp
  unfold pyStrip
  rw [h1, h2, h3, ← h2, List.reverse_reverse]

theorem extract_foldl_eq (pages : List (Option (List Char))) :
    ∀ acc : List XRow,
      pages.foldl
        (fun acc otext =>
          match otext with
          | some text =>
            if text ≠ [] then
              (splitNl text).foldl (fun a l => a ++ (rowOfLine l).toList) acc
            else acc
          | none => acc) acc
        = acc ++ (pageLines pages).filterMap rowOfLine := by
  induction pages with
  | nil =>
    intro acc
    simp [pageLines]
  | cons o ps ih =>
    intro acc
    cases o with
    | none =>
      simp only [List.foldl_cons]
      rw [ih acc]
      simp [pageLines, pageTextLines]
    | some t =>
      by_cases ht : t = []
      · subst ht
        simp only [List.foldl_cons, ne_eq, not_true_eq_false, if_false]
        rw [ih acc]
        simp [pageLines, pageTextLines]
      · simp only [List.foldl_cons, ne_eq, ht, not_false_eq_true, if_true]
        rw [foldl_opt_acc rowOfLine (splitNl t) acc, ih, foldl_opt_filterMap]
        simp [pageLines, pageTextLines, ht, List.filterMap_append, List.append_assoc]

/-! ## Lemmas for the role resolver and the positional router -/

theorem truthy_iff (o : Option String) : truthy o = true ↔ ∃ c, o = some c ∧ c ≠ "" := by
  cases o with
  | none => simp [truthy]
  | some s => simp [truthy]

theorem pick_mem {cols names : List String} {c : String} (h : _pick cols names = some c) :
    c ∈ names :=
  List.mem_of_find?_eq_some h

theorem ne_of_mem_all_ne {a b : String} {l1 l2 : List String} (h1 : a ∈ l1) (h2 : b ∈ l2)
    (hd : l1.all (fun x => l2.all (fun y => x ≠ y)) = true) : a ≠ b := by
  have hx := List.all_eq_true.mp hd a h1
  have hy := List.all_eq_true.mp hx b h2
  exact of_decide_eq_true hy

theorem getCell_keysNone (c : String) (keys : List String) :
    getCell (keys.map (fun k => (k, Cell.none))) c = Cell.none := by
  induction keys with
  | nil => rfl
  | cons k ks ih =>
    simp only [List.map_cons, getCell, List.find?_cons]
    cases hk : (k == c)
    · simpa [getCell] using ih
    · simp

theorem getCell_mkRow (cols : List String) (c : String) : getCell (mkRow cols) c = Cell.none :=
  getCell_keysNone c (firstDedupAux cols [])

theorem cellActive_set_zero (r : Row) (k c : String)
    (h : cellActive (getCell r c) = false) :
    cellActive (getCell (setCell r k (Cell.num pyZero)) c) = false := by
  by_cases hc : c = k
  · subst hc
    rw [getCell_setCell_same]
    rfl
  · rw [getCell_setCell_ne _ _ _ _ hc]
    exact h

theorem mem_filtTruthy {l : List (Option String)} {c : String} (h : c ∈ filtTruthy l) :
    some c ∈ l ∧ c ≠ "" := by
  unfold filtTruthy at h
  obtain ⟨o, ho, hoc⟩ := List.mem_filterMap.mp h
  cases o with
  | none => simp at hoc
  | some s =>
    dsimp only at hoc
    by_cases hs : s ≠ ""
    · rw [if_pos hs] at hoc
      injection hoc with he
      subst he
      exact ⟨ho, hs⟩
    · rw [if_neg hs] at hoc
      cases hoc

theorem rowDesc_posPre (cfg : Config) (parts : List (List Char))
    (hdb : truthy cfg.col_desc = true → truthy cfg.col_balance = true →
      och cfg.col_desc ≠ och cfg.col_balance) :
    rowDesc cfg (posPre cfg parts) = posDesc cfg parts := by
  unfold rowDesc posDesc
  by_cases hd : truthy cfg.col_desc = true
  · simp only [hd, if_true]
    have hget : getCell (posPre cfg parts) (och cfg.col_desc)
        = Cell.str (pyStrip (partD parts 1)) := by
      simp only [posPre]
      by_cases hbw : posNums parts ≠ [] ∧ truthy cfg.col_balance = true
      · rw [if_pos hbw, getCell_setCell_ne _ _ _ _ (hdb hd hbw.2), if_pos hd,
          getCell_setCell_same]
      · rw [if_neg hbw, if_pos hd, getCell_setCell_same]
    rw [hget]
    rfl
  · simp [hd]

theorem posAmounts_two (cfg : Config) (row2 : Row) (a b : PyF) (rest : List PyF)
    (hdeb : truthy cfg.col_debit = true) (hcred : truthy cfg.col_credit = true)
    (hdc : och cfg.col_debit ≠ och cfg.col_credit)
    (ha : 1 / 1000000000 ≤ |a.toRat|) (hb : 1 / 1000000000 ≤ |b.toRat|)
    (ha0 : 0 ≤ a.toRat) (hb0 : 0 ≤ b.toRat) :
    (hasKw credit_keywords (rowDesc cfg row2) = true →
      getCell (posAmounts cfg row2 (a :: b :: rest)) (och cfg.col_credit)
        = Cell.num (pyMax a b)) ∧
    (hasKw credit_keywords (rowDesc cfg row2) = false →
      hasKw debit_keywords (rowDesc cfg row2) = true →
      getCell (posAmounts cfg row2 (a :: b :: rest)) (och cfg.col_debit)
        = Cell.num (pyMax a b)) ∧
    (hasKw credit_keywords (rowDesc cfg row2) = false →
      hasKw debit_keywords (rowDesc cfg row2) = false →
      getCell (posAmounts cfg row2 (a :: b :: rest)) (och cfg.col_debit) = Cell.num a ∧
      getCell (posAmounts cfg row2 (a :: b :: rest)) (och cfg.col_credit) = Cell.num pyZero) := by
  have hc1 : PyF.lt (PyF.abs a) epsLit = false := by
    cases h : PyF.lt (PyF.abs a) epsLit
    · rfl
    · exfalso
      have h2 := (PyF.lt_iff _ _).mp h
      rw [PyF.toRat_abs, epsLit_toRat] at h2
      linarith
  have hc2 : PyF.lt (PyF.abs b) epsLit = false := by
    cases h : PyF.lt (PyF.abs b) epsLit
    · rfl
    · exfalso
      have h2 := (PyF.lt_iff _ _).mp h
      rw [PyF.toRat_abs, epsLit_toRat] at h2
      linarith
  have hn1 : PyF.lt a pyZero = false := by
    cases h : PyF.lt a pyZero
    · rfl
    · exfalso
      have h2 := (PyF.lt_iff _ _).mp h
      rw [pyZero_toRat] at h2
      linarith
  have hn2 : PyF.lt b pyZero = false := by
    cases h : PyF.lt b pyZero
    · rfl
    · exfalso
      have h2 := (PyF.lt_iff _ _).mp h
      rw [pyZero_toRat] at h2
      linarith
  refine ⟨?_, ?_, ?_⟩
  · intro hkw
    simp [posAmounts, hdeb, hcred, hc1, hc2, hn1, hn2, hkw, getCell_setCell_same]
  · intro hkw hkw2
    simp [posAmounts, hdeb, hcred, hc1, hc2, hn1, hn2, hkw, hkw2, getCell_setCell_same]
  · intro hkw hkw2
    simp only [posAmounts, hdeb, hcred, hc1, hc2, hn1, hn2, hkw, hkw2]
    simp only [Bool.false_eq_true, false_and, and_false, if_false, false_or, or_self,
      Bool.true_eq_false, not_false_eq_true, if_true, true_or, not_true_eq_false]
    constructor
    · rw [getCell_setCell_ne _ _ _ _ hdc, getCell_setCell_same]
    · rw [getCell_setCell_same]

/-- When `remaining` is empty, the amount assignment writes nothing active:
every cell that was inactive stays inactive. -/
theorem posAmounts_nil (cfg : Config) (x : Row) (c : String)
    (hx : cellActive (getCell x c) = false) :
    cellActive (getCell (posAmounts cfg x []) c) = false := by
  unfold posAmounts
  split
  · exact hx
  · dsimp only
    by_cases hA : truthy cfg.col_debit = true ∧ getCell x (och cfg.col_debit) = Cell.none
    · rw [if_pos hA]
      by_cases hB : truthy cfg.col_credit = true ∧
          getCell (setCell x (och cfg.col_debit) (Cell.num pyZero)) (och cfg.col_credit)
            = Cell.none
      · rw [if_pos hB]
        exact cellActive_set_zero _ _ _ (cellActive_set_zero _ _ _ hx)
      · rw [if_neg hB]
        exact cellActive_set_zero _ _ _ hx
    · rw [if_neg hA]
      by_cases hB : truthy cfg.col_credit = true ∧
          getCell x (och cfg.col_credit) = Cell.none
      · rw [if_pos hB]
        exact cellActive_set_zero _ _ _ hx
      · rw [if_neg hB]
        exact hx

/-! ## The claims -/

/-- Claim C2 (code bug evidence): for every input, `parse` raises: the
value `extract_text` hands it is a DataFrame, and `parse` immediately
calls `.splitlines()` on it, so the promised "always returns a (possibly
empty) table" never happens. -/
theorem C2_parse_always_raises (pages : List (Option (List Char))) :
    parse pages = Except.error (PyExn.attributeError "splitlines") := rfl

set_option maxRecDepth 10000 in
/-- Claim C3: with a Debit/Credit schema, the flagged grammar maps the line
`01-02-2024 Salary Credit CR 5,000.00 10,000.00` to exactly the row with
Date `2024-02-01`, Description `Salary Credit`, Debit 0.0, Credit 5000.0
and Balance 10000.0 (and the full per-line pipeline agrees, since the
CR/DR flag is set for this statement). -/
theorem C3_flagged_example :
    ∃ row : Row,
      lineRow (guessConfig c3Cols c3Line) c3Line = some row ∧
      flaggedRow (guessConfig c3Cols c3Line) c3Line = some row ∧
      getCell row "Date" = Cell.str (lc "2024-02-01") ∧
      getCell row "Description" = Cell.str (lc "Salary Credit") ∧
      cellRat (getCell row "Debit Amt") = some 0 ∧
      cellRat (getCell row "Credit Amt") = some 5000 ∧
      cellRat (getCell row "Balance") = some 10000 := by
  refine ⟨c3Row, by decide, by decide, by decide, by decide, ?_, ?_, ?_⟩
  · have h : getCell c3Row "Debit Amt" = Cell.num ⟨0, 0⟩ := by decide
    rw [h]
    norm_num [cellRat, PyF.toRat]
  · have h : getCell c3Row "Credit Amt" = Cell.num ⟨500000, 2⟩ := by decide
    rw [h]
    norm_num [cellRat, PyF.toRat]
  · have h : getCell c3Row "Balance" = Cell.num ⟨1000000, 2⟩ := by decide
    rw [h]
    norm_num [cellRat, PyF.toRat]

/-- Claim C4 is false on the code: the text `" cr "` carries a standalone
lowercase token, but `uses_type` checks only the exact-case substrings, so
the flag stays unset. -/
theorem C4_counterexample : ¬C4Claim := by
  intro h
  have h2 := (h (lc " cr ")).mpr (Or.inl (by decide))
  exact absurd h2 (by decide)

/-- Claim C4 amended: the flag is set exactly when the text contains one of
the four case-sensitive substrings `" CR "`, `" DR "`, `"Cr "`, `"Dr "`
(the last two do not require a leading space, and no case folding is
done). -/
theorem C4_flag_characterization (text : List Char) :
    usesTypeOf text = true ↔
      ((∃ p q, text = p ++ lc " CR " ++ q) ∨ (∃ p q, text = p ++ lc " DR " ++ q) ∨
       (∃ p q, text = p ++ lc "Cr " ++ q) ∨ (∃ p q, text = p ++ lc "Dr " ++ q)) := by
  unfold usesTypeOf
  simp only [Bool.or_eq_true, hasSub_iff, or_assoc]

/-- Claim C5 is false on the code: the page text `hello world` is one
non-empty trimmed line, yet `extract_text` exposes no row for it (fewer
than five tokens). -/
theorem C5_counterexample : ¬C5Claim := by
  intro h
  have h2 := h [some (lc "hello world")]
  revert h2
  decide

/-- Claim C5 amended: `extract_text` keeps, in input order, exactly the
lines with at least five whitespace tokens whose first token is not
`Date`, each reduced to the five fields (first token, joined middle, last
three tokens), and then drops duplicate rows, keeping first
occurrences. -/
theorem C5_extract_pipeline (pages : List (Option (List Char))) :
    extract_text pages = dropDupsFirst ((pageLines pages).filterMap rowOfLine) := by
  have h := extract_foldl_eq pages []
  rw [List.nil_append] at h
  exact congrArg dropDupsFirst h

theorem normDateAux_findSome (fs : List Re) : ∀ r : List Char,
    normDateAux fs r = ((fs.findSome? (fun f => tryFmt f r)).map isoOf).getD r := by
  induction fs with
  | nil =>
    intro r
    simp [normDateAux, List.findSome?_nil]
  | cons f fs2 ih =>
    intro r
    simp only [normDateAux, List.findSome?_cons]
    cases h : tryFmt f r <;> simp [h, ih]

set_option maxRecDepth 10000 in
/-- Claim C7: `_norm_date` tries the four formats in their fixed order,
emits the first success in ISO form and passes unmatched text through
trimmed; the three quoted examples hold, and for `2024/01/31` the first
three formats indeed fail (the fourth wins). -/
theorem C7_date_normalizer :
    (∀ raw : List Char, _norm_date raw =
      ((strpFmts.findSome? (fun f => tryFmt f (pyStrip raw))).map isoOf).getD (pyStrip raw)) ∧
    _norm_date (lc "31-01-2024") = lc "2024-01-31" ∧
    _norm_date (lc "2024/01/31") = lc "2024-01-31" ∧
    (strpFmts.take 3).all (fun f => (tryFmt f (lc "2024/01/31")).isNone) = true ∧
    _norm_date (lc "not-a-date") = lc "not-a-date" := by
  refine ⟨fun raw => normDateAux_findSome strpFmts (pyStrip raw), ?_, ?_, ?_, ?_⟩
  · decide
  · decide
  · decide
  · decide

/-- Claim C8: `_try_rows` maps each line independently (first conjunct: it
is exactly the in-order concatenation of each line's optional row) and is
a homomorphism for concatenation of line sequences, so output row order
follows input line order for every schema. -/
theorem C8_order_preservation :
    (∀ (cfg : Config) (lines : List (List Char)),
      _try_rows cfg lines = lines.filterMap (lineRow cfg)) ∧
    (∀ (cfg : Config) (xs ys : List (List Char)),
      _try_rows cfg (xs ++ ys) = _try_rows cfg xs ++ _try_rows cfg ys) := by
  have h1 : ∀ (cfg : Config) (lines : List (List Char)),
      _try_rows cfg lines = lines.filterMap (lineRow cfg) := by
    intro cfg lines
    exact foldl_opt_filterMap (lineRow cfg) lines
  refine ⟨h1, fun cfg xs ys => ?_⟩
  rw [h1, h1, h1, List.filterMap_append]

set_option maxRecDepth 10000 in
/-- Claim C9: `extract_text` never returns two identical rows, and on a
page whose two qualifying lines are identical it keeps only the first, so
one row comes out of two qualifying lines. -/
theorem C9_dedup :
    (∀ pages : List (Option (List Char)), (extract_text pages).Nodup) ∧
    extract_text [some (lc "01-01-2024 A 1 2 3\n01-01-2024 A 1 2 3")]
      = [⟨lc "01-01-2024", lc "A", lc "1", lc "2", lc "3"⟩] ∧
    ((pageLines [some (lc "01-01-2024 A 1 2 3\n01-01-2024 A 1 2 3")]).filterMap rowOfLine).length
      = 2 := by
  refine ⟨?_, by decide, by decide⟩
  intro pages
  exact (dropDupsFirstAux_spec _ []).1

set_option maxRecDepth 10000 in
/-- Claim C6: the Numeric Normalizer ignores thousands separators, negates
a fully parenthesised token whose inside `float` parses, returns 0.0 for
empty and for unparsable text, and satisfies the four quoted examples. -/
theorem C6_num_normalizer :
    (∀ s : List Char, _num s = _num (stripCommas s)) ∧
    (∀ (s : List Char) (v : PyF), pyFloat (stripCommas s) = some v →
      (_num ('(' :: s ++ [')'])).toRat = -v.toRat) ∧
    (∀ s : List Char, pyFloat (pyStrip (stripCommas s)) = none →
      (pyStrip (stripCommas s)).head? ≠ some '(' → _num s = pyZero) ∧
    (_num (lc "1,234.50")).toRat = 1234.50 ∧
    (_num (lc "(500.00)")).toRat = -500 ∧
    (_num (lc "")).toRat = 0 ∧
    (_num (lc "abc")).toRat = 0 := by
  refine ⟨?_, ?_, ?_, ?_, ?_, ?_, ?_⟩
  · intro s
    unfold _num
    rw [stripCommas_idem]
  · intro s v hv
    have hsc : stripCommas ('(' :: s ++ [')']) = '(' :: stripCommas s ++ [')'] := by
      simp [stripCommas, List.filter_append]
    unfold _num
    rw [hsc, pyStrip_paren]
    unfold numCore
    rw [if_neg (by simp)]
    rw [if_pos ⟨rfl, by rw [List.getLast?_concat]⟩]
    have hdrop : (('(' :: stripCommas s ++ [')']).drop 1).dropLast = stripCommas s := by
      simp
    rw [hdrop, hv]
    simp [PyF.toRat_neg]
  · intro s hnone hhead
    unfold _num numCore
    by_cases he : pyStrip (stripCommas s) = []
    · rw [if_pos he]
    · rw [if_neg he, if_neg (fun hw => hhead hw.1), hnone]
      rfl
  · have h : _num (lc "1,234.50") = ⟨123450, 2⟩ := by decide
    rw [h]
    norm_num [PyF.toRat]
  · have h : _num (lc "(500.00)") = ⟨-50000, 2⟩ := by decide
    rw [h]
    norm_num [PyF.toRat]
  · have h : _num (lc "") = ⟨0, 0⟩ := by decide
    rw [h]
    norm_num [PyF.toRat]
  · have h : _num (lc "abc") = ⟨0, 0⟩ := by decide
    rw [h]
    norm_num [PyF.toRat]

set_option maxRecDepth 10000 in
/-- Claim C1 amended: in the positional grammar with a Debit/Credit schema
and two non-zero, non-negative numbers `a, b` before the balance, a credit
keyword routes `max(a, b)` to Credit; a debit keyword (with no credit
keyword) routes `max(a, b)` — not `a` — to Debit; with no keyword at all,
Debit gets `a` and Credit `0.0`. -/
theorem C1_amended_routing (cols : List String) (text ln : List Char) (row : Row)
    (a b : PyF) (rest : List PyF)
    (hdeb : truthy (guessConfig cols text).col_debit = true)
    (hcred : truthy (guessConfig cols text).col_credit = true)
    (hrow : positionalRow (guessConfig cols text) ln = some row)
    (hrem : posRemaining (posNums (splitWs2 (pyStrip ln))) = a :: b :: rest)
    (ha : 1 / 1000000000 ≤ |a.toRat|) (hb : 1 / 1000000000 ≤ |b.toRat|)
    (ha0 : 0 ≤ a.toRat) (hb0 : 0 ≤ b.toRat) :
    (hasKw credit_keywords (posDesc (guessConfig cols text) (splitWs2 (pyStrip ln))) = true →
      cellRat (getCell row (och (guessConfig cols text).col_credit))
        = some (max a.toRat b.toRat)) ∧
    (hasKw credit_keywords (posDesc (guessConfig cols text) (splitWs2 (pyStrip ln))) = false →
      hasKw debit_keywords (posDesc (guessConfig cols text) (splitWs2 (pyStrip ln))) = true →
      cellRat (getCell row (och (guessConfig cols text).col_debit))
        = some (max a.toRat b.toRat)) ∧
    (hasKw credit_keywords (posDesc (guessConfig cols text) (splitWs2 (pyStrip ln))) = false →
      hasKw debit_keywords (posDesc (guessConfig cols text) (splitWs2 (pyStrip ln))) = false →
      cellRat (getCell row (och (guessConfig cols text).col_debit)) = some a.toRat ∧
      cellRat (getCell row (och (guessConfig cols text).col_credit)) = some 0) := by
  obtain ⟨d, hdeq, hdne⟩ := (truthy_iff _).mp hdeb
  obtain ⟨c, hceq, hcne⟩ := (truthy_iff _).mp hcred
  have hdm : d ∈ debitNames := pick_mem (show _pick cols debitNames = some d from hdeq)
  have hcm : c ∈ creditNames := pick_mem (show _pick cols creditNames = some c from hceq)
  have hdc : och (guessConfig cols text).col_debit ≠ och (guessConfig cols text).col_credit := by
    rw [hdeq, hceq]
    exact ne_of_mem_all_ne hdm hcm (by decide)
  have hdbal : truthy (guessConfig cols text).col_desc = true →
      truthy (guessConfig cols text).col_balance = true →
      och (guessConfig cols text).col_desc ≠ och (guessConfig cols text).col_balance := by
    intro hs hb2
    obtain ⟨s, hseq, -⟩ := (truthy_iff _).mp hs
    obtain ⟨bl, hbeq, -⟩ := (truthy_iff _).mp hb2
    have hsm : s ∈ descNames := pick_mem (show _pick cols descNames = some s from hseq)
    have hbm : bl ∈ balanceNames := pick_mem (show _pick cols balanceNames = some bl from hbeq)
    rw [hseq, hbeq]
    exact ne_of_mem_all_ne hsm hbm (by decide)
  simp only [positionalRow] at hrow
  split at hrow
  · split at hrow
    · injection hrow with hrow
      subst hrow
      have hk := posAmounts_two (guessConfig cols text)
          (posPre (guessConfig cols text) (splitWs2 (pyStrip ln)))
          a b rest hdeb hcred hdc ha hb ha0 hb0
      rw [rowDesc_posPre _ _ hdbal] at hk
      obtain ⟨k1, k2, k3⟩ := hk
      refine ⟨?_, ?_, ?_⟩
      · intro hkw
        have h1 := k1 hkw
        unfold posBuild
        rw [hrem, getCell_defaultsNum_preserve _ _ _ (by rw [h1]; simp), h1]
        simp only [cellRat]
        rw [pyMax_toRat]
      · intro hkw hkw2
        have h1 := k2 hkw hkw2
        unfold posBuild
        rw [hrem, getCell_defaultsNum_preserve _ _ _ (by rw [h1]; simp), h1]
        simp only [cellRat]
        rw [pyMax_toRat]
      · intro hkw hkw2
        obtain ⟨h1, h2⟩ := k3 hkw hkw2
        unfold posBuild
        constructor
        · rw [hrem, getCell_defaultsNum_preserve _ _ _ (by rw [h1]; simp), h1]
          rfl
        · rw [hrem, getCell_defaultsNum_preserve _ _ _ (by rw [h2]; simp), h2]
          simp [cellRat, pyZero_toRat]
    · cases hrow
  · cases hrow

set_option maxRecDepth 10000 in
/-- Claim C1 as stated is false: the line
`01-02-2024  ATM use  100.00  200.00  300.00` has the debit keyword `atm`
and non-zero non-negative `a = 100.0`, `b = 200.0`, but the code routes
`max(a, b) = 200.0` to Debit where the claim requires `a = 100.0`. -/
theorem C1_counterexample : ¬C1Claim := by
  intro h
  have h2 := h c3Cols (lc "") c1Line
      ((positionalRow (guessConfig c3Cols (lc "")) c1Line).getD [])
      ⟨10000, 2⟩ ⟨20000, 2⟩ []
      (by decide) (by decide) (by decide) (by decide)
      (by norm_num [PyF.toRat]) (by norm_num [PyF.toRat])
      (by norm_num [PyF.toRat]) (by norm_num [PyF.toRat])
  have h3 := (h2.2 (by decide)).1
  have h4 : getCell ((positionalRow (guessConfig c3Cols (lc "")) c1Line).getD [])
      (och (guessConfig c3Cols (lc "")).col_debit) = Cell.num ⟨20000, 2⟩ := by decide
  rw [h4] at h3
  simp only [cellRat, Option.some.injEq] at h3
  norm_num [PyF.toRat] at h3

set_option maxRecDepth 10000 in
/-- Witness for the amended routing: on a credit-keyword line with
`a = 100.0`, `b = 200.0`, the Credit cell receives `max(a, b)`. -/
theorem C1_amended_routing_witness :
    hasKw credit_keywords (posDesc (guessConfig c3Cols (lc "")) (splitWs2 (pyStrip c1wLine)))
      = true ∧
    cellRat (getCell ((positionalRow (guessConfig c3Cols (lc "")) c1wLine).getD [])
        (och (guessConfig c3Cols (lc "")).col_credit))
      = some (max (PyF.toRat ⟨10000, 2⟩) (PyF.toRat ⟨20000, 2⟩)) := by
  refine ⟨by decide, ?_⟩
  exact (C1_amended_routing c3Cols (lc "") c1wLine
      ((positionalRow (guessConfig c3Cols (lc "")) c1wLine).getD [])
      ⟨10000, 2⟩ ⟨20000, 2⟩ []
      (by decide) (by decide) (by decide) (by decide)
      (by norm_num [PyF.toRat]) (by norm_num [PyF.toRat])
      (by norm_num [PyF.toRat]) (by norm_num [PyF.toRat])).1 (by decide)

set_option maxRecDepth 10000 in
/-- Claim C10: `remaining` is `nums` with its last element dropped,
unconditionally — whether or not a Balance role exists; hence with no
Balance role, a positional line carrying exactly one numeric token
assigns its number nowhere and produces no row at all. -/
theorem C10_no_balance_drops_last :
    (∀ nums : List PyF, posRemaining nums = nums.dropLast) ∧
    (∀ (cols : List String) (text ln : List Char) (v : PyF),
      (guessConfig cols text).col_balance = none →
      posNums (splitWs2 (pyStrip ln)) = [v] →
      positionalRow (guessConfig cols text) ln = none) := by
  constructor
  · intro nums
    cases nums with
    | nil => rfl
    | cons x xs => simp [posRemaining]
  · intro cols text ln v hbal hnums
    have hbal2 : _pick cols balanceNames = none := hbal
    have hrem : posRemaining (posNums (splitWs2 (pyStrip ln))) = [] := by
      rw [hnums]
      rfl
    have hacc : posAccept (guessConfig cols text)
        (posBuild (guessConfig cols text) (splitWs2 (pyStrip ln))) = false := by
      unfold posAccept
      rw [List.any_eq_false]
      intro cc hcc
      have hcc2 : cc ∈ filtTruthy [_pick cols debitNames, _pick cols creditNames,
          _pick cols amountNames, _pick cols balanceNames] := hcc
      obtain ⟨hmem, hne⟩ := mem_filtTruthy hcc2
      simp only [List.mem_cons, List.not_mem_nil, or_false] at hmem
      have hccn : cc ∈ debitNames ∨ cc ∈ creditNames ∨ cc ∈ amountNames := by
        rcases hmem with hm | hm | hm | hm
        · exact Or.inl (pick_mem hm.symm)
        · exact Or.inr (Or.inl (pick_mem hm.symm))
        · exact Or.inr (Or.inr (pick_mem hm.symm))
        · rw [hbal2] at hm
          cases hm
      have step : ∀ (r : Row) (o : Option String) (z : Cell), getCell r cc = Cell.none →
          (truthy o = true → cc ≠ och o) →
          getCell (if truthy o = true then setCell r (och o) z else r) cc = Cell.none := by
        intro r o z h1 h2
        split
        · rename_i ht
          rw [getCell_setCell_ne _ _ _ _ (h2 ht)]
          exact h1
        · exact h1
      have hcd : truthy (guessConfig cols text).col_date = true →
          cc ≠ och (guessConfig cols text).col_date := by
        intro ht
        obtain ⟨t, hteq, -⟩ := (truthy_iff _).mp ht
        have htm : t ∈ dateNames := pick_mem (show _pick cols dateNames = some t from hteq)
        rw [hteq]
        rcases hccn with hn | hn | hn
        · exact ne_of_mem_all_ne hn htm (by decide)
        · exact ne_of_mem_all_ne hn htm (by decide)
        · exact ne_of_mem_all_ne hn htm (by decide)
      have hcs : truthy (guessConfig cols text).col_desc = true →
          cc ≠ och (guessConfig cols text).col_desc := by
        intro ht
        obtain ⟨t, hteq, -⟩ := (truthy_iff _).mp ht
        have htm : t ∈ descNames := pick_mem (show _pick cols descNames = some t from hteq)
        rw [hteq]
        rcases hccn with hn | hn | hn
        · exact ne_of_mem_all_ne hn htm (by decide)
        · exact ne_of_mem_all_ne hn htm (by decide)
        · exact ne_of_mem_all_ne hn htm (by decide)
      have hpre : getCell (posPre (guessConfig cols text) (splitWs2 (pyStrip ln))) cc
          = Cell.none := by
        simp only [posPre]
        rw [if_neg (fun hcond => by rw [hbal] at hcond; exact absurd hcond.2 (by decide))]
        exact step _ _ _ (step _ _ _ (getCell_mkRow _ _) hcd) hcs
      have hfin : cellActive (getCell
          (posBuild (guessConfig cols text) (splitWs2 (pyStrip ln))) cc) = false := by
        unfold posBuild
        rw [hrem, cellActive_defaultsNum]
        exact posAmounts_nil _ _ _ (by rw [hpre]; rfl)
      simp [hfin]
    simp only [positionalRow]
    split
    · simp [hacc]
    · rfl

set_option maxRecDepth 10000 in
/-- Witness for C10: on the schema without a Balance column, the
one-number positional line `01-02-2024  Fee  50.00` yields no row. -/
theorem C10_no_balance_drops_last_witness :
    positionalRow (guessConfig ["Date", "Description", "Debit Amt", "Credit Amt"] (lc ""))
        (lc "01-02-2024  Fee  50.00") = none :=
  C10_no_balance_drops_last.2 ["Date", "Description", "Debit Amt", "Credit Amt"] (lc "")
    (lc "01-02-2024  Fee  50.00") ⟨5000, 2⟩ (by decide) (by decide)

end BankParse
